import Mathlib

/-!
Verification of the golw size-based log-rotation writer.

The repository contains two generations of the writer:

* `logWriter.go`: a `LogWriter` built around a pending byte buffer `buf`,
  a running byte count `writtenBytes` for the active file, and
  `indexOfFinalNewline`, the index of the last line terminator inside the
  buffer (`-1` when none has been recorded).  Its operations are `Write`
  (buffered and unbuffered modes), `flush`, `rotate` (close, rename,
  create), and `Close`.

* `file.go`: an extents-based rewrite whose `LogWriter` tracks the length
  of every accepted write in `extents`, the current file size in
  `fileSizeNow`, and whether the last accepted write ended in a newline in
  `waitingForNewline`.  Its operations are `Write`,
  `flushCompletedExtents`, `flushAsMuchAsPossible`, `writeExtents`,
  `rotateLog`, and `Close`.

Both are embedded below.  Bytes are modelled as `Nat` (the line terminator
is byte 10).  The file system is modelled by the contents of the active
file, the stack of rotated-away file contents, and counters of create and
rename operations performed at the canonical path.  The operating-system
write primitive `(*os.File).Write` is modelled by an oracle
`Nat → FWrite` mapping the requested byte count to the count the
primitive reports together with its error flag; the success oracle `okOr`
reports every requested byte written with no error.  Timestamp formatting
and file naming are out of scope (the rotated contents stack stands for
the timestamped files), as is multi-process access.
-/

/-- Result reported by the operating-system file write primitive
`(*os.File).Write`: the byte count it returned (`nw`, possibly negative or
too large for a misbehaving file) and whether it returned a non-nil
error. -/
structure FWrite where
  nw : Int
  isErr : Bool
deriving Repr, DecidableEq

/-- Errors surfaced by the writer: an error from the file write primitive,
the writer's own invalid-write-result error, and errors from the close,
rename and create steps of rotation. -/
inductive GoErr where
  | writeE
  | invalidWrite
  | closeE
  | renameE
  | createE
deriving Repr, DecidableEq

/-- The file system as seen at the writer's directory: the contents of the
file at the canonical (active) path, the contents preserved at timestamped
paths by renames (most recent first), and how many create and rename
operations have been performed at the canonical path. -/
structure FS where
  active : List Nat
  rotated : List (List Nat)
  created : Nat
  renames : Nat
deriving Repr, DecidableEq

/-- Append bytes confirmed by the file primitive to the active file. -/
def fsWrite (fs : FS) (bytes : List Nat) : FS :=
  { fs with active := fs.active ++ bytes }

/-- Effect on the file system of a completed rotation: the active contents
move to a timestamped path (rename) and a fresh empty file is created at
the canonical path. -/
def rotateFS (fs : FS) : FS :=
  { active := [], rotated := fs.active :: fs.rotated,
    created := fs.created + 1, renames := fs.renames + 1 }

/-- Every byte ever durably written, in chronological order: the rotated
files oldest first, then the active file. -/
def fsLog (fs : FS) : List Nat :=
  fs.rotated.reverse.flatten ++ fs.active

/-- State of the `logWriter.go` writer (`LogWriter` struct): pending
buffer, byte count committed to the active file, configured size limit
and flush threshold, index of the final newline in the buffer (`-1`
sentinel), whether the file handle is held (`filePointer != nil`), and
the file system. -/
structure LogWriter where
  buf : List Nat
  writtenBytes : Int
  maxBytes : Int
  flushThreshold : Nat
  indexOfFinalNewline : Int
  fileOpen : Bool
  fs : FS
deriving Repr, DecidableEq

/-- `bytes.LastIndexByte`: index of the last occurrence of `c` in `p`, or
`-1` when `c` does not occur. -/
def lastIndexByte (p : List Nat) (c : Nat) : Int :=
  match p with
  | [] => -1
  | x :: xs =>
    let r := lastIndexByte xs c
    if 0 ≤ r then r + 1 else if x = c then 0 else -1

/-- `rotate` with an explicit outcome for each of its three steps
(`closeLogFile`, `renameLogFile`, `createLogFile`); `true` means the step
succeeds.  `closeLogFile` releases the handle and resets `writtenBytes`
even when the operating-system close reports an error.  A failed step
returns its error without attempting the remaining steps. -/
def rotateO (lw : LogWriter) (closeStep renameStep createStep : Bool) :
    Option GoErr × LogWriter :=
  let lw1 := { lw with fileOpen := false, writtenBytes := 0 }
  if closeStep = false then (some GoErr.closeE, lw1)
  else if renameStep = false then (some GoErr.renameE, lw1)
  else
    let lw2 := { lw1 with fs := { active := [],
                                  rotated := lw1.fs.active :: lw1.fs.rotated,
                                  created := lw1.fs.created,
                                  renames := lw1.fs.renames + 1 } }
    if createStep = false then (some GoErr.createE, lw2)
    else (none, { lw2 with fileOpen := true,
                           fs := { lw2.fs with created := lw2.fs.created + 1 } })

/-- A successful rotation (all three steps succeed). -/
def rotateOkS (lw : LogWriter) : LogWriter :=
  (rotateO lw true true true).2

/-- Core of `logWriter.go`'s `flush` after the rotation check and the call
to the file primitive: validate the reported count, advance
`writtenBytes` and shift the buffer on the expected path, and on an error
compute how many bytes of the newly appended chunk were written
(`nb := nw - olen`), truncate the buffer accordingly, and rescan it for
its last terminator. -/
def flushCore (lw : LogWriter) (olen dlen index : Nat) (r : FWrite) :
    Int × Option GoErr × LogWriter :=
  let nw : Int := if r.nw < 0 ∨ (index : Int) < r.nw then 0 else r.nw
  let err : Option GoErr :=
    if r.nw < 0 ∨ (index : Int) < r.nw then
      (if r.isErr then some GoErr.writeE else some GoErr.invalidWrite)
    else (if r.isErr then some GoErr.writeE else none)
  let lw1 :=
    if (¬ (r.nw < 0 ∨ (index : Int) < r.nw)) ∧ 0 < r.nw then
      { lw with writtenBytes := lw.writtenBytes + nw, buf := lw.buf.drop nw.toNat }
    else lw
  if err = none then
    (dlen, none, { lw1 with indexOfFinalNewline := lw1.indexOfFinalNewline - nw })
  else
    let nb : Int := nw - (olen : Int)
    let lw2 := if nb < 0 then { lw1 with buf := lw1.buf.take (-nb).toNat }
               else { lw1 with buf := [] }
    ((if nb < 0 then 0 else nb), err,
     { lw2 with indexOfFinalNewline := lastIndexByte lw2.buf 10 })

/-- `logWriter.go`'s `flush`: rotate first when the flush would push the
active file past `maxBytes` or the flushed count alone exceeds
`maxBytes` (rotation modelled as succeeding; `rotateO` models its failure
modes separately), then write `buf[:index]` through the file primitive —
the file receives exactly the bytes the primitive confirms — and finish
with `flushCore`. -/
def flush (lw : LogWriter) (olen dlen index : Nat) (orc : Nat → FWrite) :
    Int × Option GoErr × LogWriter :=
  let lw1 := if lw.maxBytes < lw.writtenBytes + (index : Int) ∨ lw.maxBytes < (index : Int)
             then rotateOkS lw else lw
  let r := orc index
  let lw2 := { lw1 with fs := fsWrite lw1.fs ((lw1.buf.take index).take r.nw.toNat) }
  flushCore lw2 olen dlen index r

/-- `logWriter.go`'s `Write`.  Unbuffered mode (`flushThreshold = 0`):
rotate when the chunk would push the file past `maxBytes`, then write the
whole chunk and add the reported count to `writtenBytes`.  Buffered mode:
append to the buffer, record the absolute position of the last newline of
`p` if any, and return immediately unless the buffer exceeds the
threshold and holds a recorded newline, in which case flush up to and
including that newline. -/
def lwWrite (lw : LogWriter) (p : List Nat) (orc : Nat → FWrite) :
    Int × Option GoErr × LogWriter :=
  if lw.flushThreshold = 0 then
    let lw1 := if lw.maxBytes < lw.writtenBytes + (p.length : Int) then rotateOkS lw else lw
    let r := orc p.length
    let lw2 := { lw1 with fs := fsWrite lw1.fs (p.take r.nw.toNat),
                          writtenBytes := lw1.writtenBytes + r.nw }
    (r.nw, if r.isErr then some GoErr.writeE else none, lw2)
  else
    let origBufLen := lw.buf.length
    let lw1 := { lw with buf := lw.buf ++ p }
    let lw2 := if 0 ≤ lastIndexByte p 10 then
                 { lw1 with indexOfFinalNewline := (origBufLen : Int) + lastIndexByte p 10 }
               else lw1
    if lw2.buf.length ≤ lw2.flushThreshold ∨ lw2.indexOfFinalNewline < 0 then
      ((p.length : Int), none, lw2)
    else
      flush lw2 origBufLen p.length (lw2.indexOfFinalNewline + 1).toNat orc

/-- `logWriter.go`'s `Close`: write the remaining buffer (if nonempty)
through the file primitive and empty the buffer, reset
`indexOfFinalNewline` to the sentinel, then `closeLogFile` (release the
handle, reset `writtenBytes`).  Closing an already released (nil) handle
yields the wrapped invalid-handle close error; a write error takes
precedence over a close error. -/
def closeLW (lw : LogWriter) (orc : Nat → FWrite) : Option GoErr × LogWriter :=
  let r := orc lw.buf.length
  let writeErr : Option GoErr :=
    if 0 < lw.buf.length ∧ r.isErr then some GoErr.writeE else none
  let lw1 := if 0 < lw.buf.length then
               { lw with fs := fsWrite lw.fs (lw.buf.take r.nw.toNat), buf := [] }
             else lw
  let closeErr : Option GoErr := if lw1.fileOpen then none else some GoErr.closeE
  let lw2 := { lw1 with indexOfFinalNewline := -1, fileOpen := false, writtenBytes := 0 }
  (if writeErr.isSome then writeErr else closeErr, lw2)

/-- Success oracle for the file primitive: every requested byte is
reported written, with no error. -/
def okOr : Nat → FWrite := fun k => { nw := (k : Int), isErr := false }

/-- `Write` with a fully succeeding file primitive. -/
def writeOk (lw : LogWriter) (p : List Nat) : Int × Option GoErr × LogWriter :=
  lwWrite lw p okOr

/-- `Close` with a fully succeeding file primitive. -/
def closeOk (lw : LogWriter) : Option GoErr × LogWriter :=
  closeLW lw okOr

/-- A sequence of `Write` calls with a fully succeeding file primitive. -/
def runWrites (lw : LogWriter) (ps : List (List Nat)) : LogWriter :=
  ps.foldl (fun s p => (writeOk s p).2.2) lw

/-- `NewLogWriter` after a successful `createLogFile` (`O_TRUNC`: the
active file starts empty and its creation is counted): empty buffer,
`writtenBytes = 0`, `indexOfFinalNewline = -1`, open handle. -/
def initLW (t : Nat) (m : Int) : LogWriter :=
  { buf := [], writtenBytes := 0, maxBytes := m, flushThreshold := t,
    indexOfFinalNewline := -1, fileOpen := true,
    fs := { active := [], rotated := [], created := 1, renames := 0 } }

/-- Configuration of the extents-based writer of `file.go`
(`BufferSizeMax` already resolved: `0` means unbuffered). -/
structure FXConfig where
  bufferSizeMax : Nat
  maxBytes : Int
deriving Repr, DecidableEq

/-- State of the extents-based writer of `file.go`: pending buffer, the
length of each accepted write (`extents`), the size of the open log file
(`fileSizeNow`), and whether the last accepted write did not end in a
newline (`waitingForNewline`). -/
structure FX where
  cfg : FXConfig
  buf : List Nat
  extents : List Nat
  fileSizeNow : Int
  waitingForNewline : Bool
  fs : FS
deriving Repr, DecidableEq

/-- `lw.extents[len(lw.extents)-1] += k` (no-op on an empty slice, which
the source never reaches because `waitingForNewline` implies a previous
accepted write). -/
def incLast (l : List Nat) (k : Nat) : List Nat :=
  match l with
  | [] => []
  | [x] => [x + k]
  | x :: y :: xs => x :: incLast (y :: xs) k

/-- `rotateLog` with all three steps succeeding; `openLog` on the fresh
file records size 0. -/
def fxRotateOk (s : FX) : FX :=
  { s with fileSizeNow := 0, fs := rotateFS s.fs }

/-- `writeExtents` with a fully succeeding file primitive: `byteCount`
bytes leave the buffer for the active file and `extentCount` extents are
consumed. -/
def fxWriteExtentsOk (s : FX) (extentCount byteCount : Nat) : FX :=
  { s with fs := fsWrite s.fs (s.buf.take byteCount),
           fileSizeNow := s.fileSizeNow + (byteCount : Int),
           buf := s.buf.drop byteCount,
           extents := s.extents.drop extentCount }

/-- The extent-counting loop of `flushAsMuchAsPossible`: how many leading
extents (at most `maxCount`) fit in `remaining` bytes, and their total
byte count. -/
def countFit (exts : List Nat) (maxCount : Nat) (remaining : Int) : Nat × Int :=
  match exts, maxCount with
  | e :: es, Nat.succ mc =>
      if remaining < (e : Int) then (0, 0)
      else
        let res := countFit es mc (remaining - (e : Int))
        (res.1 + 1, res.2 + (e : Int))
  | _, _ => (0, 0)

/-- `flushAsMuchAsPossible` with a fully succeeding file primitive: flush
the longest prefix of completed extents that fits in the open log file
without exceeding `maxBytes`, never a non-terminated final extent. -/
def fxFlushAsMuchAsPossibleOk (s : FX) : FX :=
  let maxC := if s.waitingForNewline then s.extents.length - 1 else s.extents.length
  if maxC = 0 then s
  else
    let res := countFit s.extents maxC (s.cfg.maxBytes - s.fileSizeNow)
    if res.1 = 0 then s
    else fxWriteExtentsOk s res.1 res.2.toNat

/-- The loop of `flushCompletedExtents` with a fully succeeding file
primitive, by fuel (`none` = fuel exhausted; callers pass one unit per
extent plus one, which the loop never exceeds because every iteration
consumes at least one extent). -/
def fxFlushCompletedExtentsOk : Nat → FX → Option FX
  | 0, _ => none
  | Nat.succ fuel, s =>
    match s.extents with
    | [] => some s
    | e0 :: _ =>
      if s.extents.length = 1 ∧ s.waitingForNewline then some s
      else if s.cfg.maxBytes < (e0 : Int) + s.fileSizeNow then
        let s1 := if 0 < s.fileSizeNow then fxRotateOk s else s
        if s1.cfg.maxBytes < (e0 : Int) then
          fxFlushCompletedExtentsOk fuel (fxWriteExtentsOk s1 1 e0)
        else
          fxFlushCompletedExtentsOk fuel (fxFlushAsMuchAsPossibleOk s1)
      else
        fxFlushCompletedExtentsOk fuel (fxFlushAsMuchAsPossibleOk s)

/-- `file.go`'s `Write` (file primitive and rotation modelled as
succeeding).  `none` models a computation that does not return normally:
in buffered mode the final statement evaluates `p[len(p)-1]`, which on an
empty chunk is an out-of-range index (a runtime panic).  Buffered mode
first flushes completed extents when `p` will not fit in a non-empty
buffer, then extends the last extent or starts a new one, appends `p`,
and records whether `p` ended in a newline.  Unbuffered mode rotates when
a non-empty file would overflow, then writes `p` directly. -/
def fxWrite (s : FX) (p : List Nat) : Option (Nat × FX) :=
  if 0 < s.cfg.bufferSizeMax then
    let step1 : Option FX :=
      if 0 < s.buf.length ∧ s.cfg.bufferSizeMax < s.buf.length + p.length then
        (if 1 < s.extents.length ∨ s.waitingForNewline = false then
          fxFlushCompletedExtentsOk (s.extents.length + 1) s
        else some s)
      else some s
    match step1 with
    | none => none
    | some s1 =>
      let s2 := if s1.waitingForNewline
                then { s1 with extents := incLast s1.extents p.length }
                else { s1 with extents := s1.extents ++ [p.length] }
      let s3 := { s2 with buf := s2.buf ++ p }
      match p.getLast? with
      | none => none
      | some b => some (p.length, { s3 with waitingForNewline := b ≠ 10 })
  else
    let s1 := if 0 < s.fileSizeNow ∧ s.cfg.maxBytes < s.fileSizeNow + (p.length : Int)
              then fxRotateOk s else s
    some (p.length, { s1 with fs := fsWrite s1.fs p,
                              fileSizeNow := s1.fileSizeNow + (p.length : Int) })

/-- `file.go`'s `NewLogWriter` after a successful `openLog` on a fresh
file (size 0, one creation). -/
def fxInit (bmax : Nat) (m : Int) : FX :=
  { cfg := { bufferSizeMax := bmax, maxBytes := m },
    buf := [], extents := [], fileSizeNow := 0, waitingForNewline := false,
    fs := { active := [], rotated := [], created := 1, renames := 0 } }

theorem lastIndexByte_ge (l : List Nat) (c : Nat) : -1 ≤ lastIndexByte l c := by
  induction l with
  | nil => simp [lastIndexByte]
  | cons x xs ih =>
    simp only [lastIndexByte]
    split
    · omega
    · split <;> omega

theorem lastIndexByte_lt (l : List Nat) (c : Nat) :
    lastIndexByte l c < (l.length : Int) := by
  induction l with
  | nil => simp [lastIndexByte]
  | cons x xs ih =>
    simp only [lastIndexByte, List.length_cons]
    split
    · push_cast
      omega
    · split <;> (push_cast; omega)

theorem lastIndexByte_of_not_mem {l : List Nat} {c : Nat} (h : c ∉ l) :
    lastIndexByte l c = -1 := by
  induction l with
  | nil => rfl
  | cons x xs ih =>
    simp only [List.mem_cons, not_or] at h
    have h1 : lastIndexByte xs c = -1 := ih h.2
    simp only [lastIndexByte, h1]
    rw [if_neg (by norm_num), if_neg (fun hx => h.1 hx.symm)]

theorem lastIndexByte_nonneg_of_mem {l : List Nat} {c : Nat} (h : c ∈ l) :
    0 ≤ lastIndexByte l c := by
  induction l with
  | nil => simp at h
  | cons x xs ih =>
    simp only [lastIndexByte]
    by_cases hr : 0 ≤ lastIndexByte xs c
    · rw [if_pos hr]
      omega
    · rw [if_neg hr]
      rcases List.mem_cons.mp h with h1 | h1
      · rw [if_pos h1.symm]
      · exact absurd (ih h1) hr

theorem lastIndexByte_append (a b : List Nat) (c : Nat) :
    lastIndexByte (a ++ b) c =
      if 0 ≤ lastIndexByte b c then (a.length : Int) + lastIndexByte b c
      else lastIndexByte a c := by
  induction a with
  | nil =>
    have hge := lastIndexByte_ge b c
    simp only [List.nil_append, List.length_nil, Nat.cast_zero, lastIndexByte]
    split <;> omega
  | cons x xs ih =>
    simp only [List.cons_append, lastIndexByte, List.length_cons, List.append_eq]
    rw [ih]
    by_cases hb : 0 ≤ lastIndexByte b c
    · simp only [if_pos hb]
      rw [if_pos (show (0:Int) ≤ (xs.length : Int) + lastIndexByte b c by omega)]
      push_cast
      ring
    · simp only [if_neg hb]

theorem not_mem_drop_lastIndexByte (l : List Nat) (c : Nat) :
    c ∉ l.drop ((lastIndexByte l c).toNat + 1) := by
  induction l with
  | nil => simp
  | cons x xs ih =>
    simp only [lastIndexByte]
    by_cases hr : 0 ≤ lastIndexByte xs c
    · rw [if_pos hr]
      have heq : (lastIndexByte xs c + 1).toNat + 1 = ((lastIndexByte xs c).toNat + 1) + 1 := by
        omega
      rw [heq]
      simpa using ih
    · rw [if_neg hr]
      have hxs : c ∉ xs := fun hmem => hr (lastIndexByte_nonneg_of_mem hmem)
      by_cases hx : x = c
      · rw [if_pos hx]
        simpa using hxs
      · rw [if_neg hx]
        simpa using hxs

theorem fsLog_fsWrite (fs : FS) (b : List Nat) :
    fsLog (fsWrite fs b) = fsLog fs ++ b := by
  simp [fsLog, fsWrite]

theorem fsLog_rotateFS (fs : FS) : fsLog (rotateFS fs) = fsLog fs := by
  simp [fsLog, rotateFS]

theorem rotateOkS_eq (lw : LogWriter) :
    rotateOkS lw = { lw with writtenBytes := 0, fileOpen := true, fs := rotateFS lw.fs } := by
  simp [rotateOkS, rotateO, rotateFS]

theorem flushCore_fs (lw : LogWriter) (olen dlen index : Nat) (r : FWrite) :
    (flushCore lw olen dlen index r).2.2.fs = lw.fs := by
  simp only [flushCore]
  split_ifs <;> rfl

/-- Normal form of the buffered branch of `Write` when
`indexOfFinalNewline` is the index of the buffer's last terminator: the
updated index is the last terminator of the extended buffer. -/
theorem lwWrite_buffered (lw : LogWriter) (p : List Nat) (orc : Nat → FWrite)
    (h0 : lw.flushThreshold ≠ 0)
    (hidx : lw.indexOfFinalNewline = lastIndexByte lw.buf 10) :
    lwWrite lw p orc =
      (if (lw.buf ++ p).length ≤ lw.flushThreshold ∨ lastIndexByte (lw.buf ++ p) 10 < 0 then
        ((p.length : Int), none,
         { lw with buf := lw.buf ++ p,
                   indexOfFinalNewline := lastIndexByte (lw.buf ++ p) 10 })
      else
        flush { lw with buf := lw.buf ++ p,
                        indexOfFinalNewline := lastIndexByte (lw.buf ++ p) 10 }
          lw.buf.length p.length (lastIndexByte (lw.buf ++ p) 10 + 1).toNat orc) := by
  have hL : lastIndexByte (lw.buf ++ p) 10 =
      if 0 ≤ lastIndexByte p 10 then (lw.buf.length : Int) + lastIndexByte p 10
      else lw.indexOfFinalNewline := by
    rw [lastIndexByte_append, hidx]
  simp only [lwWrite, if_neg h0]
  by_cases hp : 0 ≤ lastIndexByte p 10
  · simp only [if_pos hp] at hL ⊢
    rw [← hL]
  · simp only [if_neg hp] at hL ⊢
    rw [hL]

/-- Normal form of `flush` with a fully succeeding file primitive: the
first `index` buffered bytes move to the (possibly fresh) active file. -/
theorem flush_ok (lw : LogWriter) (olen dlen index : Nat) (hpos : 0 < index) :
    flush lw olen dlen index okOr =
      ((dlen : Int), none,
       (fun lw1 =>
         { lw1 with fs := fsWrite lw1.fs (lw1.buf.take index),
                    writtenBytes := lw1.writtenBytes + (index : Int),
                    buf := lw1.buf.drop index,
                    indexOfFinalNewline := lw1.indexOfFinalNewline - (index : Int) })
       (if lw.maxBytes < lw.writtenBytes + (index : Int) ∨ lw.maxBytes < (index : Int)
        then rotateOkS lw else lw)) := by
  have h1 : ¬ ((index : Int) < 0 ∨ (index : Int) < (index : Int)) := by omega
  have h2 : (0 : Int) < (index : Int) := by exact_mod_cast hpos
  simp only [flush, flushCore, okOr, if_neg h1, not_or]
  split_ifs with hrot h3 h4 <;>
    simp_all [Int.toNat_ofNat, List.take_take, fsWrite]

theorem closeOk_of_closed (s : LogWriter) (hb : s.buf = []) (ho : s.fileOpen = false) :
    (closeOk s).1 = some GoErr.closeE ∧ (closeOk s).2.fs = s.fs := by
  simp [closeOk, closeLW, hb, ho]

/-- Claim C7: rotation performs close, then rename, then create, strictly
in that order: it succeeds exactly when all three steps do, a failed
close returns the close error having performed no rename and no create, a
failed rename returns the rename error having performed no rename and no
create, a failed create returns the create error after exactly one rename
and no create, and a full rotation performs one rename and one create. -/
theorem rotate_step_order (lw : LogWriter) (c r cr : Bool) :
    ((rotateO lw c r cr).1 = none ↔ c = true ∧ r = true ∧ cr = true)
    ∧ (rotateO lw false r cr).1 = some GoErr.closeE
    ∧ (rotateO lw false r cr).2.fs = lw.fs
    ∧ (rotateO lw true false cr).1 = some GoErr.renameE
    ∧ (rotateO lw true false cr).2.fs = lw.fs
    ∧ (rotateO lw true true false).1 = some GoErr.createE
    ∧ (rotateO lw true true false).2.fs.renames = lw.fs.renames + 1
    ∧ (rotateO lw true true false).2.fs.created = lw.fs.created
    ∧ (rotateO lw true true true).1 = none
    ∧ (rotateO lw true true true).2.fs = rotateFS lw.fs := by
  cases c <;> cases r <;> cases cr <;> simp [rotateO, rotateFS]

/-- Claim C6: a buffered flush of `count = index` bytes performs a
rotation (one create and one rename at the canonical path) exactly when
`writtenBytes + count` exceeds `maxBytes` or `count` alone exceeds
`maxBytes`, and immediately after a rotation `writtenBytes` is 0. -/
theorem flush_rotation_condition (lw : LogWriter) (olen dlen index : Nat)
    (orc : Nat → FWrite) :
    (flush lw olen dlen index orc).2.2.fs.created =
      lw.fs.created +
        (if lw.maxBytes < lw.writtenBytes + (index : Int) ∨ lw.maxBytes < (index : Int)
         then 1 else 0)
    ∧ (flush lw olen dlen index orc).2.2.fs.renames =
      lw.fs.renames +
        (if lw.maxBytes < lw.writtenBytes + (index : Int) ∨ lw.maxBytes < (index : Int)
         then 1 else 0)
    ∧ (rotateOkS lw).writtenBytes = 0 := by
  refine ⟨?_, ?_, by simp [rotateOkS_eq]⟩ <;>
  · simp only [flush, flushCore_fs, rotateOkS_eq]
    split_ifs <;> simp [fsWrite, rotateFS]

/-- Claim C9: Close is idempotent with respect to file content: the first
Close leaves the buffer empty, and a second Close writes no bytes to any
file (the file system is unchanged) and returns the well-defined
closed-state error produced by closing an already released handle. -/
theorem close_idempotent_content (lw : LogWriter) :
    (closeOk lw).2.buf = []
    ∧ (closeOk (closeOk lw).2).2.fs = (closeOk lw).2.fs
    ∧ (closeOk (closeOk lw).2).1 = some GoErr.closeE := by
  have hbuf : (closeOk lw).2.buf = [] := by
    by_cases hb : 0 < lw.buf.length
    · simp [closeOk, closeLW, hb]
    · have hnil : lw.buf = [] := List.eq_nil_of_length_eq_zero (by omega)
      simp [closeOk, closeLW, hb, hnil]
  have hopen : (closeOk lw).2.fileOpen = false := by
    by_cases hb : 0 < lw.buf.length <;> simp [closeOk, closeLW, hb]
  exact ⟨hbuf, (closeOk_of_closed _ hbuf hopen).2, (closeOk_of_closed _ hbuf hopen).1⟩

/-- Claim C3, evaluated at the failing input: buffered writer with
threshold 2; a single Write of "abc\x0a" during which the file primitive
reports 2 bytes written together with an error.  The call reports 2 bytes
(the number of the call's bytes confirmed durable, since the buffer held
nothing beforehand) and surfaces the error, but the undelivered tail
"c\x0a" is discarded — the buffer is left empty instead of retaining the
bytes the primitive never confirmed. -/
theorem flush_error_discards_unwritten_tail :
    (lwWrite (initLW 2 100) [97, 98, 99, 10] (fun _ => { nw := 2, isErr := true })).1 = 2
    ∧ (lwWrite (initLW 2 100) [97, 98, 99, 10] (fun _ => { nw := 2, isErr := true })).2.1
        = some GoErr.writeE
    ∧ (lwWrite (initLW 2 100) [97, 98, 99, 10] (fun _ => { nw := 2, isErr := true })).2.2.buf
        = []
    ∧ (lwWrite (initLW 2 100) [97, 98, 99, 10] (fun _ => { nw := 2, isErr := true })).2.2.fs.active
        = [97, 98] := by
  decide

/-- Claim C8, evaluated at the failing input: in buffered mode (the
default configuration, `BufferSizeMax` 128) the extents-based `Write`
ends by evaluating `p[len(p)-1]`, which for an empty chunk is an
out-of-range index — the call panics (modelled `none`) instead of
returning `(0, nil)`. -/
theorem fx_write_empty_panics : fxWrite (fxInit 128 100) [] = none := by decide

/-- Claim C2, counterexample to the claim as stated: with `MaxBytes = 4`
in unbuffered mode, a single Write of five bytes holding no line
terminator leaves a tracked file size of 5 > 4 on a file whose contents
do not end in a terminator, so the oversized file is not the claimed
line-terminated-extent exception. -/
theorem oversize_unterminated_file_exists :
    (writeOk (initLW 0 4) [104, 101, 108, 108, 111]).2.2.writtenBytes = 5
    ∧ (writeOk (initLW 0 4) [104, 101, 108, 108, 111]).2.2.maxBytes = 4
    ∧ (writeOk (initLW 0 4) [104, 101, 108, 108, 111]).2.2.fs.active
        = [104, 101, 108, 108, 111]
    ∧ (writeOk (initLW 0 4) [104, 101, 108, 108, 111]).2.2.fs.active.getLast? ≠ some 10 := by
  decide

/-- Claim C2 as amended: as a result of a buffered flush (file primitive
succeeding), the tracked size of the active file never exceeds
`maxBytes`, except that a flushed extent longer than `maxBytes` is
written alone, immediately after a rotation, into its own (possibly
oversized) file. -/
theorem flush_size_bound (lw : LogWriter) (olen dlen : Nat)
    (hidx : 0 ≤ lw.indexOfFinalNewline) :
    (flush lw olen dlen (lw.indexOfFinalNewline + 1).toNat okOr).2.2.writtenBytes ≤ lw.maxBytes
    ∨ (lw.maxBytes < lw.indexOfFinalNewline + 1
       ∧ (flush lw olen dlen (lw.indexOfFinalNewline + 1).toNat okOr).2.2.fs.created
           = lw.fs.created + 1
       ∧ (flush lw olen dlen (lw.indexOfFinalNewline + 1).toNat okOr).2.2.fs.active
           = lw.buf.take (lw.indexOfFinalNewline + 1).toNat
       ∧ (flush lw olen dlen (lw.indexOfFinalNewline + 1).toNat okOr).2.2.writtenBytes
           = lw.indexOfFinalNewline + 1) := by
  have hpos : 0 < (lw.indexOfFinalNewline + 1).toNat := by omega
  have hcast : (((lw.indexOfFinalNewline + 1).toNat : Nat) : Int)
      = lw.indexOfFinalNewline + 1 := by omega
  rw [flush_ok _ _ _ _ hpos]
  by_cases hrot : lw.maxBytes < lw.writtenBytes + (((lw.indexOfFinalNewline + 1).toNat : Nat) : Int)
      ∨ lw.maxBytes < (((lw.indexOfFinalNewline + 1).toNat : Nat) : Int)
  · rw [if_pos hrot]
    by_cases hfits : lw.indexOfFinalNewline + 1 ≤ lw.maxBytes
    · left
      simp [rotateOkS_eq, rotateFS, hcast]
      omega
    · right
      refine ⟨by omega, ?_, ?_, ?_⟩ <;> simp [rotateOkS_eq, rotateFS, fsWrite, hcast]
  · rw [if_neg hrot]
    left
    simp only [hcast]
    omega

def lwC4 : LogWriter := { initLW 4 100 with buf := [97] }

/-- Claim C2, amendment witnessed at a concrete input exercising the
oversized-extent branch. -/
theorem flush_size_bound_witness :
    (0 : Int) ≤ ({ initLW 2 3 with buf := [97, 10, 98, 10], indexOfFinalNewline := 3 }
        : LogWriter).indexOfFinalNewline
    ∧ ((flush { initLW 2 3 with buf := [97, 10, 98, 10], indexOfFinalNewline := 3 } 0 4
          (({ initLW 2 3 with buf := [97, 10, 98, 10], indexOfFinalNewline := 3 }
            : LogWriter).indexOfFinalNewline + 1).toNat okOr).2.2.writtenBytes
        ≤ ({ initLW 2 3 with buf := [97, 10, 98, 10], indexOfFinalNewline := 3 }
            : LogWriter).maxBytes
      ∨ (({ initLW 2 3 with buf := [97, 10, 98, 10], indexOfFinalNewline := 3 }
            : LogWriter).maxBytes
          < ({ initLW 2 3 with buf := [97, 10, 98, 10], indexOfFinalNewline := 3 }
            : LogWriter).indexOfFinalNewline + 1
         ∧ (flush { initLW 2 3 with buf := [97, 10, 98, 10], indexOfFinalNewline := 3 } 0 4
              (({ initLW 2 3 with buf := [97, 10, 98, 10], indexOfFinalNewline := 3 }
                : LogWriter).indexOfFinalNewline + 1).toNat okOr).2.2.fs.created
             = ({ initLW 2 3 with buf := [97, 10, 98, 10], indexOfFinalNewline := 3 }
                : LogWriter).fs.created + 1
         ∧ (flush { initLW 2 3 with buf := [97, 10, 98, 10], indexOfFinalNewline := 3 } 0 4
              (({ initLW 2 3 with buf := [97, 10, 98, 10], indexOfFinalNewline := 3 }
                : LogWriter).indexOfFinalNewline + 1).toNat okOr).2.2.fs.active
             = ({ initLW 2 3 with buf := [97, 10, 98, 10], indexOfFinalNewline := 3 }
                : LogWriter).buf.take
                 (({ initLW 2 3 with buf := [97, 10, 98, 10], indexOfFinalNewline := 3 }
                   : LogWriter).indexOfFinalNewline + 1).toNat
         ∧ (flush { initLW 2 3 with buf := [97, 10, 98, 10], indexOfFinalNewline := 3 } 0 4
              (({ initLW 2 3 with buf := [97, 10, 98, 10], indexOfFinalNewline := 3 }
                : LogWriter).indexOfFinalNewline + 1).toNat okOr).2.2.writtenBytes
             = ({ initLW 2 3 with buf := [97, 10, 98, 10], indexOfFinalNewline := 3 }
                : LogWriter).indexOfFinalNewline + 1)) :=
  ⟨by decide,
   flush_size_bound { initLW 2 3 with buf := [97, 10, 98, 10], indexOfFinalNewline := 3 } 0 4
     (by decide)⟩

/-- Claim C4, counterexample to the claim as stated: buffered writer,
threshold 4; Write "ab" (no terminator) then Close.  Close writes exactly
"ab" to the active file: no closing line terminator is appended even
though the buffered data does not end in one. -/
theorem close_appends_no_terminator :
    (closeOk (writeOk (initLW 4 100) [97, 98]).2.2).2.fs.active = [97, 98]
    ∧ (closeOk (writeOk (initLW 4 100) [97, 98]).2.2).2.fs.active.getLast? ≠ some 10 := by
  decide

/-- Claim C4 as amended: for every writer state with an open handle,
Close (file primitive succeeding) flushes all remaining buffered bytes to
the active file exactly as buffered, resets `indexOfFinalNewline` to the
sentinel, releases the file handle, and reports no error. -/
theorem close_flushes_buffer (lw : LogWriter) (h : lw.fileOpen = true) :
    (closeOk lw).2.buf = []
    ∧ fsLog (closeOk lw).2.fs = fsLog lw.fs ++ lw.buf
    ∧ (closeOk lw).2.indexOfFinalNewline = -1
    ∧ (closeOk lw).2.fileOpen = false
    ∧ (closeOk lw).1 = none := by
  by_cases hb : 0 < lw.buf.length
  · simp [closeOk, closeLW, hb, okOr, h, fsLog_fsWrite]
  · have hnil : lw.buf = [] := List.eq_nil_of_length_eq_zero (by omega)
    simp [closeOk, closeLW, hb, okOr, h, hnil]

theorem flushCore_invalid (lw : LogWriter) (olen dlen index : Nat) (r : FWrite)
    (h : r.nw < 0 ∨ (index : Int) < r.nw) :
    flushCore lw olen dlen index r =
      (0, (if r.isErr then some GoErr.writeE else some GoErr.invalidWrite),
       { lw with buf := lw.buf.take olen,
                 indexOfFinalNewline := lastIndexByte (lw.buf.take olen) 10 }) := by
  have hshift : ¬ ((¬ (r.nw < 0 ∨ (index : Int) < r.nw)) ∧ 0 < r.nw) := fun hc => hc.1 h
  have herr2 : (if r.isErr = true then some GoErr.writeE else some GoErr.invalidWrite)
      ≠ (none : Option GoErr) := by
    cases r.isErr <;> simp
  simp only [flushCore, if_pos h, if_neg hshift]
  rw [if_neg herr2]
  by_cases h2 : (0 : Int) - (olen : Int) < 0
  · have htn : (-((0 : Int) - (olen : Int))).toNat = olen := by omega
    simp only [if_pos h2, htn]
  · have holen : olen = 0 := by omega
    subst holen
    simp only [if_neg h2]
    norm_num

theorem flushCore_err (lw : LogWriter) (olen dlen index : Nat) (r : FWrite)
    (h1 : ¬ (r.nw < 0 ∨ (index : Int) < r.nw)) (h2 : r.isErr = true) :
    flushCore lw olen dlen index r =
      ((if r.nw - (olen : Int) < 0 then 0 else r.nw - (olen : Int)), some GoErr.writeE,
       { lw with writtenBytes := lw.writtenBytes + r.nw,
                 buf := if r.nw - (olen : Int) < 0
                        then (lw.buf.drop r.nw.toNat).take (olen - r.nw.toNat)
                        else [],
                 indexOfFinalNewline :=
                   lastIndexByte (if r.nw - (olen : Int) < 0
                                  then (lw.buf.drop r.nw.toNat).take (olen - r.nw.toNat)
                                  else []) 10 }) := by
  have hge : 0 ≤ r.nw := by
    rcases not_or.mp h1 with ⟨ha, _⟩
    omega
  simp only [flushCore, if_neg h1, h2, if_true]
  rw [if_neg (Option.some_ne_none GoErr.writeE)]
  by_cases hpos : 0 < r.nw
  · simp only [if_pos (And.intro h1 hpos)]
    by_cases hnb : r.nw - (olen : Int) < 0
    · have htn : (-(r.nw - (olen : Int))).toNat = olen - r.nw.toNat := by omega
      simp only [if_pos hnb, htn]
    · simp only [if_neg hnb]
  · have h0 : r.nw = 0 := by omega
    simp only [if_neg
      (fun hc : (¬ (r.nw < 0 ∨ (index : Int) < r.nw)) ∧ 0 < r.nw => hpos hc.2), h0]
    by_cases hnb : (0 : Int) - (olen : Int) < 0
    · have htn : (-((0 : Int) - (olen : Int))).toNat = olen - (0 : Int).toNat := by omega
      simp only [if_pos hnb, htn]
      simp
    · have holen : olen = 0 := by omega
      subst holen
      simp only [if_neg hnb]
      norm_num

theorem flushCore_success (lw : LogWriter) (olen dlen index : Nat) (r : FWrite)
    (h1 : ¬ (r.nw < 0 ∨ (index : Int) < r.nw)) (h2 : r.isErr = false) :
    flushCore lw olen dlen index r =
      ((dlen : Int), none,
       { lw with writtenBytes := lw.writtenBytes + r.nw,
                 buf := lw.buf.drop r.nw.toNat,
                 indexOfFinalNewline := lw.indexOfFinalNewline - r.nw }) := by
  have hge : 0 ≤ r.nw := by
    rcases not_or.mp h1 with ⟨ha, _⟩
    omega
  simp only [flushCore, if_neg h1, h2]
  rw [if_neg Bool.false_ne_true, if_pos (rfl : (none : Option GoErr) = none)]
  by_cases hpos : 0 < r.nw
  · simp only [if_pos (And.intro h1 hpos)]
  · have h0 : r.nw = 0 := by omega
    simp only [if_neg
      (fun hc : (¬ (r.nw < 0 ∨ (index : Int) < r.nw)) ∧ 0 < r.nw => hpos hc.2), h0]
    simp

theorem flush_as_flushCore (lw : LogWriter) (olen dlen index : Nat) (orc : Nat → FWrite) :
    ∃ wb1 fo1 fs1, flush lw olen dlen index orc
      = flushCore { lw with writtenBytes := wb1, fileOpen := fo1, fs := fs1 }
          olen dlen index (orc index) := by
  simp only [flush]
  by_cases hrot : lw.maxBytes < lw.writtenBytes + (index : Int) ∨ lw.maxBytes < (index : Int)
  · rw [if_pos hrot, rotateOkS_eq]
    exact ⟨0, true, _, rfl⟩
  · rw [if_neg hrot]
    exact ⟨lw.writtenBytes, lw.fileOpen, _, rfl⟩

theorem not_mem_of_lastIndexByte_neg {l : List Nat} {c : Nat}
    (h : lastIndexByte l c = -1) : c ∉ l :=
  fun hm => by
    have := lastIndexByte_nonneg_of_mem hm
    omega

/-- Invariant preservation through a buffered flush at the recorded
terminator index: afterwards either the buffer fits the threshold or no
terminator index is recorded, and the recorded index is again the
buffer's last terminator.  `oldBuf` is the buffer contents before the
current Write appended its chunk; the file primitive is assumed to honour
the io.Writer contract at the flushed request (an errorless result
reports the full count). -/
theorem flush_invariant (lw : LogWriter) (oldBuf rest : List Nat) (dlen : Nat)
    (orc : Nat → FWrite)
    (hbuf : lw.buf = oldBuf ++ rest)
    (hL : lw.indexOfFinalNewline = lastIndexByte lw.buf 10)
    (hLge : 0 ≤ lw.indexOfFinalNewline)
    (hold : oldBuf.length ≤ lw.flushThreshold ∨ 10 ∉ oldBuf)
    (hcr : (orc (lw.indexOfFinalNewline + 1).toNat).isErr = true
           ∨ (orc (lw.indexOfFinalNewline + 1).toNat).nw = lw.indexOfFinalNewline + 1) :
    ((flush lw oldBuf.length dlen (lw.indexOfFinalNewline + 1).toNat orc).2.2.buf.length
        ≤ lw.flushThreshold
      ∨ (flush lw oldBuf.length dlen
          (lw.indexOfFinalNewline + 1).toNat orc).2.2.indexOfFinalNewline = -1)
    ∧ (flush lw oldBuf.length dlen
        (lw.indexOfFinalNewline + 1).toNat orc).2.2.indexOfFinalNewline
        = lastIndexByte
            (flush lw oldBuf.length dlen
              (lw.indexOfFinalNewline + 1).toNat orc).2.2.buf 10 := by
  obtain ⟨wb1, fo1, fs1, heq⟩ :=
    flush_as_flushCore lw oldBuf.length dlen (lw.indexOfFinalNewline + 1).toNat orc
  rw [heq]
  have hcast : (((lw.indexOfFinalNewline + 1).toNat : Nat) : Int)
      = lw.indexOfFinalNewline + 1 := by omega
  have htake : lw.buf.take oldBuf.length = oldBuf := by
    rw [hbuf]
    exact List.take_left _ _
  by_cases hval : (orc (lw.indexOfFinalNewline + 1).toNat).nw < 0
      ∨ (((lw.indexOfFinalNewline + 1).toNat : Nat) : Int)
          < (orc (lw.indexOfFinalNewline + 1).toNat).nw
  · rw [flushCore_invalid _ _ _ _ _ hval]
    dsimp only
    rw [htake]
    refine ⟨?_, rfl⟩
    rcases hold with h | h
    · exact Or.inl (by simpa using h)
    · exact Or.inr (lastIndexByte_of_not_mem h)
  · by_cases herrb : (orc (lw.indexOfFinalNewline + 1).toNat).isErr = true
    · rw [flushCore_err _ _ _ _ _ hval herrb]
      dsimp only
      refine ⟨?_, rfl⟩
      by_cases hnb : (orc (lw.indexOfFinalNewline + 1).toNat).nw - (oldBuf.length : Int) < 0
      · rw [if_pos hnb]
        have hnnn : (orc (lw.indexOfFinalNewline + 1).toNat).nw.toNat ≤ oldBuf.length := by
          omega
        rcases hold with h | h
        · left
          rw [List.length_take, List.length_drop]
          omega
        · right
          have hseg : (lw.buf.drop (orc (lw.indexOfFinalNewline + 1).toNat).nw.toNat).take
                (oldBuf.length - (orc (lw.indexOfFinalNewline + 1).toNat).nw.toNat)
              = oldBuf.drop (orc (lw.indexOfFinalNewline + 1).toNat).nw.toNat := by
            rw [hbuf, List.drop_append_of_le_length hnnn]
            exact List.take_left' (by rw [List.length_drop])
          rw [hseg]
          exact lastIndexByte_of_not_mem
            (fun hm => h (List.drop_subset _ _ hm))
      · rw [if_neg hnb]
        exact Or.inr rfl
    · have hf : (orc (lw.indexOfFinalNewline + 1).toNat).isErr = false := by
        revert herrb
        cases (orc (lw.indexOfFinalNewline + 1).toNat).isErr <;> simp
      have hnw : (orc (lw.indexOfFinalNewline + 1).toNat).nw
          = lw.indexOfFinalNewline + 1 := by
        rcases hcr with h | h
        · rw [hf] at h
          cases h
        · exact h
      rw [flushCore_success _ _ _ _ _ hval hf]
      dsimp only
      have hdrop : (lw.indexOfFinalNewline + 1).toNat
          = (lastIndexByte lw.buf 10).toNat + 1 := by
        rw [← hL]
        omega
      constructor
      · right
        rw [hnw]
        omega
      · rw [hnw, hdrop]
        have hnm : (10 : Nat) ∉ lw.buf.drop ((lastIndexByte lw.buf 10).toNat + 1) :=
          not_mem_drop_lastIndexByte lw.buf 10
        rw [lastIndexByte_of_not_mem hnm]
        omega

theorem flush_ok_fsLog (lw : LogWriter) (olen dlen index : Nat) (hpos : 0 < index) :
    fsLog (flush lw olen dlen index okOr).2.2.fs = fsLog lw.fs ++ lw.buf.take index
    ∧ (flush lw olen dlen index okOr).2.2.buf = lw.buf.drop index
    ∧ (flush lw olen dlen index okOr).1 = (dlen : Int)
    ∧ (flush lw olen dlen index okOr).2.1 = none := by
  rw [flush_ok _ _ _ _ hpos]
  by_cases hrot : lw.maxBytes < lw.writtenBytes + (index : Int) ∨ lw.maxBytes < (index : Int)
  · simp [hrot, rotateOkS_eq, fsLog_fsWrite, fsLog_rotateFS]
  · simp [hrot, fsLog_fsWrite]

/-- Claim C5: in buffered mode (with `indexOfFinalNewline` tracking the
buffer's last terminator, as the writer maintains), when after appending
`p` the buffer is at most the flush threshold or holds no recorded
terminator, Write returns `len(p)` with no error and writes nothing to
any file; otherwise it flushes (file primitive succeeding) exactly the
bytes up to and including the terminator at `lastNewlineIndex`, leaving
the remainder buffered. -/
theorem write_buffered_flush_boundary (lw : LogWriter) (p : List Nat)
    (ht : 0 < lw.flushThreshold)
    (hidx : lw.indexOfFinalNewline = lastIndexByte lw.buf 10) :
    if (lw.buf ++ p).length ≤ lw.flushThreshold ∨ lastIndexByte (lw.buf ++ p) 10 < 0 then
      (writeOk lw p).1 = (p.length : Int)
      ∧ (writeOk lw p).2.1 = none
      ∧ (writeOk lw p).2.2.fs = lw.fs
      ∧ (writeOk lw p).2.2.buf = lw.buf ++ p
    else
      (writeOk lw p).1 = (p.length : Int)
      ∧ (writeOk lw p).2.1 = none
      ∧ fsLog (writeOk lw p).2.2.fs
          = fsLog lw.fs ++ (lw.buf ++ p).take (lastIndexByte (lw.buf ++ p) 10 + 1).toNat
      ∧ (writeOk lw p).2.2.buf
          = (lw.buf ++ p).drop (lastIndexByte (lw.buf ++ p) 10 + 1).toNat := by
  have hw := lwWrite_buffered lw p okOr (by omega) hidx
  by_cases hcond : (lw.buf ++ p).length ≤ lw.flushThreshold
      ∨ lastIndexByte (lw.buf ++ p) 10 < 0
  · rw [if_pos hcond, writeOk, hw, if_pos hcond]
    exact ⟨rfl, rfl, rfl, rfl⟩
  · rw [if_neg hcond]
    have hL : 0 ≤ lastIndexByte (lw.buf ++ p) 10 := by
      rcases not_or.mp hcond with ⟨h1, h2⟩
      omega
    have hpos : 0 < (lastIndexByte (lw.buf ++ p) 10 + 1).toNat := by omega
    have hf := flush_ok_fsLog
      { lw with buf := lw.buf ++ p,
                indexOfFinalNewline := lastIndexByte (lw.buf ++ p) 10 }
      lw.buf.length p.length (lastIndexByte (lw.buf ++ p) 10 + 1).toNat hpos
    dsimp only at hf
    rw [writeOk, hw, if_neg hcond]
    exact ⟨hf.2.2.1, hf.2.2.2, hf.1, hf.2.1⟩

/-- Claim C5, witnessed at a concrete input taking the flush branch. -/
theorem write_buffered_flush_boundary_witness :
    0 < (initLW 2 100).flushThreshold
    ∧ (initLW 2 100).indexOfFinalNewline = lastIndexByte (initLW 2 100).buf 10
    ∧ (if ((initLW 2 100).buf ++ [97, 10, 98]).length ≤ (initLW 2 100).flushThreshold
          ∨ lastIndexByte ((initLW 2 100).buf ++ [97, 10, 98]) 10 < 0 then
        (writeOk (initLW 2 100) [97, 10, 98]).1 = (([97, 10, 98] : List Nat).length : Int)
        ∧ (writeOk (initLW 2 100) [97, 10, 98]).2.1 = none
        ∧ (writeOk (initLW 2 100) [97, 10, 98]).2.2.fs = (initLW 2 100).fs
        ∧ (writeOk (initLW 2 100) [97, 10, 98]).2.2.buf = (initLW 2 100).buf ++ [97, 10, 98]
      else
        (writeOk (initLW 2 100) [97, 10, 98]).1 = (([97, 10, 98] : List Nat).length : Int)
        ∧ (writeOk (initLW 2 100) [97, 10, 98]).2.1 = none
        ∧ fsLog (writeOk (initLW 2 100) [97, 10, 98]).2.2.fs
            = fsLog (initLW 2 100).fs
              ++ ((initLW 2 100).buf ++ [97, 10, 98]).take
                  (lastIndexByte ((initLW 2 100).buf ++ [97, 10, 98]) 10 + 1).toNat
        ∧ (writeOk (initLW 2 100) [97, 10, 98]).2.2.buf
            = ((initLW 2 100).buf ++ [97, 10, 98]).drop
                (lastIndexByte ((initLW 2 100).buf ++ [97, 10, 98]) 10 + 1).toNat) :=
  ⟨by decide, by decide,
   write_buffered_flush_boundary (initLW 2 100) [97, 10, 98] (by decide) (by decide)⟩

/-- States reachable from a fresh writer by successful writes that stay
below the size limit: one file created, nothing rotated or renamed, the
active file followed by the buffer holds exactly the bytes accepted so
far, `writtenBytes` is the active file's size, unbuffered mode keeps an
empty buffer, and the newline index tracks the buffer's last
terminator. -/
def goodState (lw : LogWriter) (m : Int) (t : Nat) (data : List Nat) : Prop :=
  lw.maxBytes = m ∧ lw.flushThreshold = t
  ∧ lw.fs.created = 1 ∧ lw.fs.rotated = [] ∧ lw.fs.renames = 0
  ∧ lw.fs.active ++ lw.buf = data
  ∧ lw.writtenBytes = (lw.fs.active.length : Int)
  ∧ (t = 0 → lw.buf = [])
  ∧ lw.indexOfFinalNewline = lastIndexByte lw.buf 10

theorem writeOk_good {lw : LogWriter} {m : Int} {t : Nat} {data : List Nat}
    (h : goodState lw m t data) (p : List Nat)
    (hfit : ((data.length + p.length : Nat) : Int) ≤ m) :
    goodState (writeOk lw p).2.2 m t (data ++ p) := by
  obtain ⟨hm, htt, hcr1, hrot0, hren0, hact, hwb, hub, hidx⟩ := h
  by_cases h0 : lw.flushThreshold = 0
  · have ht0 : t = 0 := by omega
    have hbuf : lw.buf = [] := hub ht0
    have hdata : lw.fs.active = data := by simpa [hbuf] using hact
    have hwb2 : lw.writtenBytes = (data.length : Int) := by rw [hwb, hdata]
    have hnorot : ¬ lw.maxBytes < lw.writtenBytes + (p.length : Int) := by
      rw [hm, hwb2]
      push_cast at hfit
      omega
    have hpt : ((p.length : Int)).toNat = p.length := by omega
    simp only [writeOk, lwWrite, if_pos h0, if_neg hnorot, okOr, hpt, List.take_length]
    refine ⟨hm, htt, hcr1, hrot0, hren0, ?_, ?_, fun _ => hbuf, ?_⟩
    · dsimp only [fsWrite]
      rw [hbuf, List.append_nil, hdata]
    · dsimp only [fsWrite]
      rw [hwb2, List.length_append, hdata]
      push_cast
      ring
    · dsimp only
      exact hidx
  · have hw := lwWrite_buffered lw p okOr h0 hidx
    simp only [writeOk]
    rw [hw]
    by_cases hcond : (lw.buf ++ p).length ≤ lw.flushThreshold
        ∨ lastIndexByte (lw.buf ++ p) 10 < 0
    · rw [if_pos hcond]
      refine ⟨hm, htt, hcr1, hrot0, hren0, ?_, hwb, fun h' => absurd (htt.trans h') h0, rfl⟩
      dsimp only
      rw [← List.append_assoc, hact]
    · rw [if_neg hcond]
      have hLge : 0 ≤ lastIndexByte (lw.buf ++ p) 10 := by
        rcases not_or.mp hcond with ⟨h1, h2⟩
        omega
      have hLlt := lastIndexByte_lt (lw.buf ++ p) 10
      have hpos : 0 < (lastIndexByte (lw.buf ++ p) 10 + 1).toNat := by omega
      have hn : (((lastIndexByte (lw.buf ++ p) 10 + 1).toNat : Nat) : Int)
          = lastIndexByte (lw.buf ++ p) 10 + 1 := by omega
      have hnle : (lastIndexByte (lw.buf ++ p) 10 + 1).toNat ≤ (lw.buf ++ p).length := by
        omega
      rw [flush_ok _ _ _ _ hpos]
      have hwbge : 0 ≤ lw.writtenBytes := by
        rw [hwb]
        positivity
      have hdlen : ((lw.buf ++ p).length : Int) = (data.length : Int) + p.length
          - lw.fs.active.length := by
        have : lw.fs.active.length + lw.buf.length = data.length := by
          rw [← hact, List.length_append]
        rw [List.length_append]
        push_cast at this ⊢
        omega
      have hnorot : ¬ (lw.maxBytes
            < lw.writtenBytes + (((lastIndexByte (lw.buf ++ p) 10 + 1).toNat : Nat) : Int)
          ∨ lw.maxBytes < (((lastIndexByte (lw.buf ++ p) 10 + 1).toNat : Nat) : Int)) := by
        rw [hm, hwb, hn]
        push_cast at hfit hdlen ⊢
        omega
      rw [if_neg hnorot]
      refine ⟨hm, htt, hcr1, hrot0, hren0, ?_, ?_, fun h' => absurd (htt.trans h') h0, ?_⟩
      · dsimp only [fsWrite]
        rw [List.append_assoc, List.take_append_drop, ← List.append_assoc, hact]
      · dsimp only [fsWrite]
        rw [List.length_append, List.length_take, Nat.min_eq_left hnle, hwb]
        push_cast
        omega
      · dsimp only
        have hn2 : (lastIndexByte (lw.buf ++ p) 10 + 1).toNat
            = (lastIndexByte (lw.buf ++ p) 10).toNat + 1 := by omega
        rw [hn, hn2, lastIndexByte_of_not_mem (not_mem_drop_lastIndexByte (lw.buf ++ p) 10)]
        omega

theorem runWrites_good {lw : LogWriter} {m : Int} {t : Nat} {data : List Nat}
    (h : goodState lw m t data) (ps : List (List Nat))
    (hfit : ((data.length + (ps.map List.length).sum : Nat) : Int) ≤ m) :
    goodState (runWrites lw ps) m t (data ++ ps.flatten) := by
  induction ps generalizing lw data with
  | nil => simpa [runWrites] using h
  | cons q qs ih =>
    have hsum : (List.map List.length (q :: qs)).sum
        = q.length + (List.map List.length qs).sum := by
      simp
    rw [hsum] at hfit
    have hq : ((data.length + q.length : Nat) : Int) ≤ m :=
      le_trans (Nat.cast_le.mpr (Nat.add_le_add_left (Nat.le_add_right _ _) _)) hfit
    have h1 := writeOk_good h q hq
    have hfit2 : (((data ++ q).length + (List.map List.length qs).sum : Nat) : Int) ≤ m := by
      refine le_trans (Nat.cast_le.mpr ?_) hfit
      rw [List.length_append]
      omega
    have h2 := ih h1 hfit2
    have hrw : runWrites lw (q :: qs) = runWrites (writeOk lw q).2.2 qs := rfl
    rw [hrw]
    simpa [List.append_assoc] using h2

theorem closeOk_fs (s : LogWriter) :
    (closeOk s).2.fs.active = s.fs.active ++ s.buf
    ∧ (closeOk s).2.fs.created = s.fs.created
    ∧ (closeOk s).2.fs.rotated = s.fs.rotated
    ∧ (closeOk s).2.fs.renames = s.fs.renames := by
  by_cases hb : 0 < s.buf.length
  · have hpt : (((s.buf.length : Nat) : Int)).toNat = s.buf.length := by omega
    simp [closeOk, closeLW, hb, okOr, fsWrite, hpt]
  · have hnil : s.buf = [] := List.eq_nil_of_length_eq_zero (by omega)
    simp [closeOk, closeLW, hb, hnil]

/-- Claim C1: for every finite sequence of successful Write calls whose
total byte count is below `maxBytes`, followed by Close, exactly one file
is ever created at the active path, no rotation (no rename) occurs, and
the file's final contents are the concatenation of all written chunks, in
order — in buffered and unbuffered modes alike. -/
theorem writes_below_max_single_file (t : Nat) (m : Int) (ps : List (List Nat))
    (hfit : (((ps.map List.length).sum : Nat) : Int) < m) :
    (closeOk (runWrites (initLW t m) ps)).2.fs.created = 1
    ∧ (closeOk (runWrites (initLW t m) ps)).2.fs.rotated = []
    ∧ (closeOk (runWrites (initLW t m) ps)).2.fs.renames = 0
    ∧ (closeOk (runWrites (initLW t m) ps)).2.fs.active = ps.flatten := by
  have hinit : goodState (initLW t m) m t [] :=
    ⟨rfl, rfl, rfl, rfl, rfl, rfl, rfl, fun _ => rfl, rfl⟩
  have hfit0 : ((([] : List Nat).length + (ps.map List.length).sum : Nat) : Int) ≤ m := by
    have h1 : (([] : List Nat).length + (ps.map List.length).sum : Nat)
        = (ps.map List.length).sum := by simp
    rw [h1]
    exact le_of_lt hfit
  have hg := runWrites_good hinit ps hfit0
  obtain ⟨hm, htt, hcr1, hrot0, hren0, hact, hwb, hub, hidx⟩ := hg
  obtain ⟨hca, hcc, hcr, hcn⟩ := closeOk_fs (runWrites (initLW t m) ps)
  refine ⟨?_, ?_, ?_, ?_⟩
  · rw [hcc, hcr1]
  · rw [hcr, hrot0]
  · rw [hcn, hren0]
  · rw [hca, hact]
    simp

/-- Claim C1, witnessed on two buffered writes totalling three bytes
against a ten-byte limit. -/
theorem writes_below_max_single_file_witness :
    ((((([[97, 10], [98]] : List (List Nat)).map List.length).sum : Nat) : Int) < 10)
    ∧ ((closeOk (runWrites (initLW 1 10) [[97, 10], [98]])).2.fs.created = 1
       ∧ (closeOk (runWrites (initLW 1 10) [[97, 10], [98]])).2.fs.rotated = []
       ∧ (closeOk (runWrites (initLW 1 10) [[97, 10], [98]])).2.fs.renames = 0
       ∧ (closeOk (runWrites (initLW 1 10) [[97, 10], [98]])).2.fs.active
           = ([[97, 10], [98]] : List (List Nat)).flatten) :=
  ⟨by decide, writes_below_max_single_file 1 10 [[97, 10], [98]] (by decide)⟩

/-- A file primitive that reports one byte written together with an
error, at every request. -/
def errOr1 : Nat → FWrite := fun _ => { nw := 1, isErr := true }

/-- Claim C10: in buffered mode, after every Write call returns — with
success or with an error — either the pending buffer length is at most
the flush threshold or `indexOfFinalNewline` is the sentinel -1, and the
recorded index is again the buffer's last terminator; consequently, from
any state satisfying the invariant a Write of the empty slice accepts 0
bytes, reports no error, and writes nothing to any file.  The file
primitive is assumed to honour the io.Writer contract at the flushed
request: an errorless result reports the full requested count. -/
theorem write_buffered_post_invariant (lw : LogWriter) (p : List Nat) (orc : Nat → FWrite)
    (ht : 0 < lw.flushThreshold)
    (hidx : lw.indexOfFinalNewline = lastIndexByte lw.buf 10)
    (hinv : lw.buf.length ≤ lw.flushThreshold ∨ lw.indexOfFinalNewline = -1)
    (hc : (orc (lastIndexByte (lw.buf ++ p) 10 + 1).toNat).isErr = true
          ∨ (orc (lastIndexByte (lw.buf ++ p) 10 + 1).toNat).nw
              = lastIndexByte (lw.buf ++ p) 10 + 1) :
    ((lwWrite lw p orc).2.2.buf.length ≤ lw.flushThreshold
      ∨ (lwWrite lw p orc).2.2.indexOfFinalNewline = -1)
    ∧ (lwWrite lw p orc).2.2.indexOfFinalNewline
        = lastIndexByte (lwWrite lw p orc).2.2.buf 10
    ∧ (lwWrite lw [] orc).1 = 0
    ∧ (lwWrite lw [] orc).2.1 = none
    ∧ (lwWrite lw [] orc).2.2.fs = lw.fs := by
  have h0 : lw.flushThreshold ≠ 0 := by omega
  have hwe := lwWrite_buffered lw [] orc h0 hidx
  have hempty : (lwWrite lw [] orc).1 = 0 ∧ (lwWrite lw [] orc).2.1 = none
      ∧ (lwWrite lw [] orc).2.2.fs = lw.fs := by
    have hcnd : (lw.buf ++ []).length ≤ lw.flushThreshold
        ∨ lastIndexByte (lw.buf ++ []) 10 < 0 := by
      rcases hinv with h | h
      · left
        simpa using h
      · right
        rw [List.append_nil, ← hidx, h]
        norm_num
    rw [hwe, if_pos hcnd]
    exact ⟨by norm_num, rfl, rfl⟩
  have hmain : ((lwWrite lw p orc).2.2.buf.length ≤ lw.flushThreshold
      ∨ (lwWrite lw p orc).2.2.indexOfFinalNewline = -1)
      ∧ (lwWrite lw p orc).2.2.indexOfFinalNewline
        = lastIndexByte (lwWrite lw p orc).2.2.buf 10 := by
    have hw := lwWrite_buffered lw p orc h0 hidx
    rw [hw]
    by_cases hcond : (lw.buf ++ p).length ≤ lw.flushThreshold
        ∨ lastIndexByte (lw.buf ++ p) 10 < 0
    · rw [if_pos hcond]
      dsimp only
      refine ⟨?_, rfl⟩
      rcases hcond with h | h
      · exact Or.inl h
      · have := lastIndexByte_ge (lw.buf ++ p) 10
        exact Or.inr (by omega)
    · rw [if_neg hcond]
      have hLge : 0 ≤ lastIndexByte (lw.buf ++ p) 10 := by
        rcases not_or.mp hcond with ⟨h1, h2⟩
        omega
      have hold : lw.buf.length ≤ lw.flushThreshold ∨ (10 : Nat) ∉ lw.buf := by
        rcases hinv with h | h
        · exact Or.inl h
        · exact Or.inr (not_mem_of_lastIndexByte_neg (by rw [← hidx, h]))
      exact flush_invariant
        { lw with buf := lw.buf ++ p,
                  indexOfFinalNewline := lastIndexByte (lw.buf ++ p) 10 }
        lw.buf p p.length orc rfl rfl hLge hold hc
  exact ⟨hmain.1, hmain.2, hempty.1, hempty.2.1, hempty.2.2⟩

/-- Claim C10, witnessed at a concrete input whose flush fails after one
confirmed byte. -/
theorem write_buffered_post_invariant_witness :
    0 < (initLW 2 100).flushThreshold
    ∧ (initLW 2 100).indexOfFinalNewline = lastIndexByte (initLW 2 100).buf 10
    ∧ ((initLW 2 100).buf.length ≤ (initLW 2 100).flushThreshold
        ∨ (initLW 2 100).indexOfFinalNewline = -1)
    ∧ ((errOr1 (lastIndexByte ((initLW 2 100).buf ++ [97, 10, 98]) 10 + 1).toNat).isErr = true
        ∨ (errOr1 (lastIndexByte ((initLW 2 100).buf ++ [97, 10, 98]) 10 + 1).toNat).nw
            = lastIndexByte ((initLW 2 100).buf ++ [97, 10, 98]) 10 + 1)
    ∧ (((lwWrite (initLW 2 100) [97, 10, 98] errOr1).2.2.buf.length
          ≤ (initLW 2 100).flushThreshold
        ∨ (lwWrite (initLW 2 100) [97, 10, 98] errOr1).2.2.indexOfFinalNewline = -1)
       ∧ (lwWrite (initLW 2 100) [97, 10, 98] errOr1).2.2.indexOfFinalNewline
           = lastIndexByte (lwWrite (initLW 2 100) [97, 10, 98] errOr1).2.2.buf 10
       ∧ (lwWrite (initLW 2 100) [] errOr1).1 = 0
       ∧ (lwWrite (initLW 2 100) [] errOr1).2.1 = none
       ∧ (lwWrite (initLW 2 100) [] errOr1).2.2.fs = (initLW 2 100).fs) :=
  ⟨by decide, by decide, by decide, by decide,
   write_buffered_post_invariant (initLW 2 100) [97, 10, 98] errOr1
     (by decide) (by decide) (by decide) (by decide)⟩

/-- Claim C4, amendment witnessed on a writer holding one unterminated
buffered byte. -/
theorem close_flushes_buffer_witness :
    lwC4.fileOpen = true
    ∧ ((closeOk lwC4).2.buf = []
       ∧ fsLog (closeOk lwC4).2.fs = fsLog lwC4.fs ++ lwC4.buf
       ∧ (closeOk lwC4).2.indexOfFinalNewline = -1
       ∧ (closeOk lwC4).2.fileOpen = false
       ∧ (closeOk lwC4).1 = none) :=
  ⟨rfl, close_flushes_buffer lwC4 rfl⟩
